import Mathlib

/-!
Verification development for the profile-analysis core of `samply-for-ai`
(`src/samply/src/profile_analysis.rs`).

The Rust module is shallowly embedded: each Rust struct becomes a Lean
structure, vectors become `List`s, `usize`/`u32`/`u64` indices become `Nat`,
`i64`/`i32` become `Int` (machine arithmetic is modelled as unbounded; none of
the verified properties depend on wrap-around), `f64` percentages become `ℚ`
(the verified properties about percentages are control-flow/consistency
properties, not rounding properties), and `HashMap`/`HashSet` become
association lists / membership lists with the corresponding first-match
update semantics.  The unbounded `while let` stack walk of the source is
embedded with explicit fuel (`walkStackAux`): the fueled walk returns `some`
exactly when the Rust loop finishes within that many iterations.

Identifier remarks: a few source names are adjusted (`stack_prefix` column is
`stack_prefix_col`, `ThreadData::get_stack_prefix` is
`get_stack_prefix_entry`, the local `FuncStats` structs of `compute_hotspots`
and `drilldown` are `HotFuncStats` and `DrillFuncStats`); doc comments name
the corresponding source item.
-/

/-- Association-list lookup returning the stored value or a default; models
`HashMap::get(..).cloned().unwrap_or(default)` flavour access. -/
def getAL {α β : Type} [DecidableEq α] (d : β) (k : α) : List (α × β) → β
  | [] => d
  | (k', v) :: rest => if k = k' then v else getAL d k rest

/-- Association-list lookup returning `Option`; models `HashMap::get`. -/
def findAL {α β : Type} [DecidableEq α] (k : α) : List (α × β) → Option β
  | [] => none
  | (k', v) :: rest => if k = k' then some v else findAL k rest

/-- Association-list update; models `map.entry(k).or_default()` followed by a
mutation `f` of the entry (with `d` the `Default::default()` value). -/
def updAL {α β : Type} [DecidableEq α] (d : β) (f : β → β) (k : α) : List (α × β) → List (α × β)
  | [] => [(k, f d)]
  | (k', v) :: rest => if k = k' then (k', f v) :: rest else (k', v) :: updAL d f k rest

/-- One step of a stable descending insertion sort keyed by `f`; an element is
inserted before the first element whose key is not larger.  Models the
behaviour of Rust's stable `sort_by` with a descending comparator. -/
def insertDescBy {α β : Type} [LinearOrder β] (f : α → β) (c : α) : List α → List α
  | [] => [c]
  | d :: rest => if f d ≤ f c then c :: d :: rest else d :: insertDescBy f c rest

/-- Stable descending sort by key `f`; models `v.sort_by(|a, b| key(b).cmp(&key(a)))`. -/
def sortDescBy {α β : Type} [LinearOrder β] (f : α → β) (l : List α) : List α :=
  l.foldr (insertDescBy f) []

/-- Substring test: `strContains s pat` models Rust `s.contains(pat)`: the
character sequence of `pat` occurs contiguously inside that of `s`. -/
def strContains (s pat : String) : Bool :=
  decide (pat.data <:+: s.data)

-- ============================================================================
-- Data model (the decoded `ProfileAnalyzer` of the source)
-- ============================================================================

/-- Source: `LibInfo`. -/
structure LibInfo where
  name : String := ""
  path : String := ""
  debug_name : String := ""
  debug_id : String := ""
  arch : String := ""
deriving Repr, DecidableEq, Inhabited

/-- Source: `NativeSymbolInfo`. -/
structure NativeSymbolInfo where
  address : Nat := 0
  size : Option Nat := none
  lib_index : Option Nat := none
deriving Repr, DecidableEq, Inhabited

/-- Source: `ThreadData`.  The `stack_prefix` column is named
`stack_prefix_col` here. -/
structure ThreadData where
  name : String := ""
  pid : String := ""
  tid : String := ""
  is_main_thread : Bool := false
  /-- `(stack_index, weight)` pairs; source field `samples`. -/
  samples : List (Option Nat × Int) := []
  stack_prefix_col : List (Option Nat) := []
  stack_frame : List Nat := []
  frame_func : List Nat := []
  frame_address : List (Option Nat) := []
  frame_line : List (Option Nat) := []
  frame_native_symbol : List (Option Nat) := []
  func_name_idx : List Nat := []
  func_file_idx : List (Option Nat) := []
  func_line : List (Option Nat) := []
  func_resource : List (Option Int) := []
  native_symbols : List NativeSymbolInfo := []
  resource_lib : List (Option Nat) := []
  string_table : List String := []
deriving Repr, DecidableEq, Inhabited

/-- Source: `ProfileAnalyzer`. -/
structure ProfileAnalyzer where
  product_name : String := ""
  sampling_interval_ms : ℚ := 0
  threads : List ThreadData := []
  global_strings : List String := []
  libs : List LibInfo := []
deriving Repr, DecidableEq, Inhabited

-- ============================================================================
-- Table accessors (source: `impl ThreadData`)
-- ============================================================================

/-- Source: `ThreadData::get_string` — local pool first, then the global pool,
then the synthetic placeholder. -/
def ThreadData.get_string (td : ThreadData) (idx : Nat) (gs : List String) : String :=
  if idx < td.string_table.length then td.string_table.getD idx ""
  else if idx < gs.length then gs.getD idx ""
  else "<string " ++ toString idx ++ ">"

/-- Source: `ThreadData::get_func_name`. -/
def ThreadData.get_func_name (td : ThreadData) (func_idx : Nat) (gs : List String) : String :=
  if func_idx < td.func_name_idx.length then
    td.get_string (td.func_name_idx.getD func_idx 0) gs
  else "<func " ++ toString func_idx ++ ">"

/-- Source: `ThreadData::get_func_file`. -/
def ThreadData.get_func_file (td : ThreadData) (func_idx : Nat) (gs : List String) : Option String :=
  if func_idx < td.func_file_idx.length then
    (td.func_file_idx.getD func_idx none).map (fun i => td.get_string i gs)
  else none

/-- Source: `ThreadData::get_func_line`. -/
def ThreadData.get_func_line (td : ThreadData) (func_idx : Nat) : Option Nat :=
  if func_idx < td.func_line.length then td.func_line.getD func_idx none else none

/-- Source: `ThreadData::get_func_lib_index`. -/
def ThreadData.get_func_lib_index (td : ThreadData) (func_idx : Nat) : Option Nat :=
  if func_idx < td.func_resource.length then
    match td.func_resource.getD func_idx none with
    | some res => if 0 ≤ res ∧ res.toNat < td.resource_lib.length then
        td.resource_lib.getD res.toNat none
      else none
    | none => none
  else none

/-- Source: `ThreadData::get_frame_func`.  Note: an out-of-range frame index
yields the plain function index `0`, not an absent value. -/
def ThreadData.get_frame_func (td : ThreadData) (frame_idx : Nat) : Nat :=
  if frame_idx < td.frame_func.length then td.frame_func.getD frame_idx 0 else 0

/-- Source: `ThreadData::get_frame_address`. -/
def ThreadData.get_frame_address (td : ThreadData) (frame_idx : Nat) : Option Nat :=
  if frame_idx < td.frame_address.length then td.frame_address.getD frame_idx none else none

/-- Source: `ThreadData::get_frame_line`. -/
def ThreadData.get_frame_line (td : ThreadData) (frame_idx : Nat) : Option Nat :=
  if frame_idx < td.frame_line.length then td.frame_line.getD frame_idx none else none

/-- Source: `ThreadData::get_frame_native_symbol`. -/
def ThreadData.get_frame_native_symbol (td : ThreadData) (frame_idx : Nat) : Option NativeSymbolInfo :=
  if frame_idx < td.frame_native_symbol.length then
    match td.frame_native_symbol.getD frame_idx none with
    | some ns => td.native_symbols.get? ns
    | none => none
  else none

/-- Source: `ThreadData::get_stack_frame`.  Note: an out-of-range stack index
yields the plain frame index `0`, not an absent value. -/
def ThreadData.get_stack_frame (td : ThreadData) (stack_idx : Nat) : Nat :=
  if stack_idx < td.stack_frame.length then td.stack_frame.getD stack_idx 0 else 0

/-- Source: `ThreadData::get_stack_prefix`. -/
def ThreadData.get_stack_prefix_entry (td : ThreadData) (stack_idx : Nat) : Option Nat :=
  if stack_idx < td.stack_prefix_col.length then td.stack_prefix_col.getD stack_idx none
  else none

-- ============================================================================
-- Stack walking (source: `walk_stack` / `walk_stack_with_frames`)
-- ============================================================================

/-- Fueled embedding of the source's unbounded loop
`while let Some(idx) = current { push (func, frame); current = prefix }`.
Returns `some walk` exactly when the Rust loop finishes within `fuel`
iterations; `none` means the loop is still running after `fuel` iterations.
The source has NO fuel: on a cyclic prefix chain the Rust loop never
terminates (see the claim about stack-walk boundedness). -/
def walkStackAux (td : ThreadData) : Nat → Option Nat → Option (List (Nat × Nat))
  | _, none => some []
  | 0, some _ => none
  | fuel + 1, some idx =>
    let frame_idx := td.get_stack_frame idx
    let func_idx := td.get_frame_func frame_idx
    (walkStackAux td fuel (td.get_stack_prefix_entry idx)).map
      (fun rest => (func_idx, frame_idx) :: rest)

/-- Source: `ThreadData::walk_stack_with_frames`, leaf-first.  The fuel
`stack_prefix_col.length + 1` is enough for every terminating run of the
source loop (proved below for decreasing prefix chains); on inputs where the
source diverges this total model returns `[]`. -/
def ThreadData.walk_stack_with_frames (td : ThreadData) (stack_idx : Nat) : List (Nat × Nat) :=
  (walkStackAux td (td.stack_prefix_col.length + 1) (some stack_idx)).getD []

/-- Source: `ThreadData::walk_stack` (its loop is the same as
`walk_stack_with_frames` keeping only the function index). -/
def ThreadData.walk_stack (td : ThreadData) (stack_idx : Nat) : List Nat :=
  (td.walk_stack_with_frames stack_idx).map Prod.fst

/-- Well-formedness of a stack table as guaranteed by the source's input
format (spec invariant S2): every prefix link points to a strictly smaller
stack index, hence prefix chains are acyclic. -/
def stackParentsDec (td : ThreadData) : Bool :=
  (List.range td.stack_prefix_col.length).all (fun i =>
    match td.stack_prefix_col.getD i none with
    | some j => decide (j < i)
    | none => true)

-- ============================================================================
-- Decoder (source: `deserialize_optional_i64_as_u64`, `RawProfile`,
-- `ProfileAnalyzer::from_raw_profile`)
-- ============================================================================

/-- Source: `deserialize_optional_i64_as_u64` — the address column is a vector
of optional signed integers; a present value `n ≥ 0` decodes to `some n`
(the `i64 → u64` cast is the identity on non-negative values) and anything
else (a negative value, notably `-1`, or a JSON `null`) decodes to `none`. -/
def decodeAddressColumn (values : List (Option Int)) : List (Option Nat) :=
  values.map (fun v =>
    match v with
    | some n => if 0 ≤ n then some n.toNat else none
    | none => none)

/-- Source: `AnalysisError` (the payloads of the I/O and JSON variants are
modelled as message strings). -/
inductive AnalysisError where
  | IoError : String → AnalysisError
  | JsonError : String → AnalysisError
  | InvalidProfile : String → AnalysisError
deriving Repr, DecidableEq

/-- Source: `RawMeta`. -/
structure RawMeta where
  product : String := ""
  interval : ℚ := 0
  start_time : ℚ := 0
deriving Repr, DecidableEq, Inhabited

/-- Source: `RawLib`. -/
structure RawLib where
  name : String := ""
  path : String := ""
  debug_name : String := ""
  debug_path : String := ""
  breakpad_id : String := ""
  code_id : String := ""
  arch : String := ""
deriving Repr, DecidableEq, Inhabited

/-- Source: `RawShared`. -/
structure RawShared where
  string_array : List String := []
deriving Repr, DecidableEq, Inhabited

/-- Source: `RawSamples`.  `length` is the declared table length from the
JSON; the column vectors carry their own lengths. -/
structure RawSamples where
  stack : List (Option Nat) := []
  weight : List Int := []
  length : Nat := 0
deriving Repr, DecidableEq, Inhabited

/-- Source: `RawStackTable` (`prefix` column named `prefix_col`). -/
structure RawStackTable where
  prefix_col : List (Option Nat) := []
  frame : List Nat := []
  length : Nat := 0
deriving Repr, DecidableEq, Inhabited

/-- Source: `RawFrameTable`; the `address` column is stored after
`deserialize_optional_i64_as_u64` has run, as in the source. -/
structure RawFrameTable where
  func : List Nat := []
  line : List (Option Nat) := []
  address : List (Option Nat) := []
  native_symbol : List (Option Nat) := []
  length : Nat := 0
deriving Repr, DecidableEq, Inhabited

/-- Source: `RawFuncTable`. -/
structure RawFuncTable where
  name : List Nat := []
  file_name : List (Option Nat) := []
  line_number : List (Option Nat) := []
  resource : List (Option Int) := []
  length : Nat := 0
deriving Repr, DecidableEq, Inhabited

/-- Source: `RawNativeSymbols`. -/
structure RawNativeSymbols where
  address : List Nat := []
  function_size : List (Option Nat) := []
  lib_index : List Nat := []
  name : List Nat := []
  length : Nat := 0
deriving Repr, DecidableEq, Inhabited

/-- Source: `RawResourceTable`. -/
structure RawResourceTable where
  lib : List (Option Nat) := []
  name : List Nat := []
  length : Nat := 0
deriving Repr, DecidableEq, Inhabited

/-- Source: `RawThread`. -/
structure RawThread where
  name : String := ""
  pid : String := ""
  tid : String := ""
  is_main_thread : Bool := false
  process_name : String := ""
  samples : RawSamples := {}
  stack_table : RawStackTable := {}
  frame_table : RawFrameTable := {}
  func_table : RawFuncTable := {}
  native_symbols : Option RawNativeSymbols := none
  resource_table : Option RawResourceTable := none
  string_table : List String := []
deriving Repr, DecidableEq, Inhabited

/-- Source: `RawProfile`. -/
structure RawProfile where
  meta : RawMeta := {}
  libs : List RawLib := []
  threads : List RawThread := []
  shared : Option RawShared := none
deriving Repr, DecidableEq, Inhabited

/-- Source: `ProfileAnalyzer::from_raw_profile`.  Faithful to the source, this
constructor performs NO validation: it never inspects the declared `length`
fields of `samples`, `stackTable`, `frameTable` or `funcTable` against the
column vectors (only `nativeSymbols.length` is used, to drive the
default-padded copy), and it always returns `Except.ok`. -/
def from_raw_profile (raw : RawProfile) : Except AnalysisError ProfileAnalyzer :=
  let global_strings := (raw.shared.map RawShared.string_array).getD []
  let libs := raw.libs.map (fun lib =>
    { name := lib.name, path := lib.path, debug_name := lib.debug_name,
      debug_id := lib.breakpad_id, arch := lib.arch : LibInfo })
  let threads := raw.threads.map (fun t =>
    let native_symbols : List NativeSymbolInfo :=
      match t.native_symbols with
      | some ns => (List.range ns.length).map (fun i =>
          { address := (ns.address.get? i).getD 0,
            size := ((ns.function_size.get? i).getD none),
            lib_index := ns.lib_index.get? i })
      | none => []
    let resource_lib := (t.resource_table.map RawResourceTable.lib).getD []
    { name := t.name, pid := t.pid, tid := t.tid,
      is_main_thread := t.is_main_thread,
      samples := t.samples.stack.zip t.samples.weight,
      stack_prefix_col := t.stack_table.prefix_col,
      stack_frame := t.stack_table.frame,
      frame_func := t.frame_table.func,
      frame_address := t.frame_table.address,
      frame_line := t.frame_table.line,
      frame_native_symbol := t.frame_table.native_symbol,
      func_name_idx := t.func_table.name,
      func_file_idx := t.func_table.file_name,
      func_line := t.func_table.line_number,
      func_resource := t.func_table.resource,
      native_symbols := native_symbols,
      resource_lib := resource_lib,
      string_table := t.string_table : ThreadData })
  Except.ok
    { product_name := raw.meta.product,
      sampling_interval_ms := raw.meta.interval,
      threads := threads,
      global_strings := global_strings,
      libs := libs }

-- ============================================================================
-- Pattern resolution (source: `ProfileAnalyzer::find_matching_function`)
-- ============================================================================

/-- Inner loop of the exact-match pass: scan one thread's `func_name_idx`
column and return the first resolved name equal to `pattern`. -/
def findExactNames (gs : List String) (pattern : String) (td : ThreadData) :
    List Nat → Option String
  | [] => none
  | ni :: rest =>
    let name := td.get_string ni gs
    if name = pattern then some name else findExactNames gs pattern td rest

/-- Outer loop of the exact-match pass over all threads. -/
def findExactIn (gs : List String) (pattern : String) : List ThreadData → Option String
  | [] => none
  | td :: rest =>
    match findExactNames gs pattern td td.func_name_idx with
    | some n => some n
    | none => findExactIn gs pattern rest

/-- Inner loop of the substring pass: first resolved name containing
`pattern`. -/
def findContainsNames (gs : List String) (pattern : String) (td : ThreadData) :
    List Nat → Option String
  | [] => none
  | ni :: rest =>
    let name := td.get_string ni gs
    if strContains name pattern then some name else findContainsNames gs pattern td rest

/-- Outer loop of the substring pass over all threads. -/
def findContainsIn (gs : List String) (pattern : String) : List ThreadData → Option String
  | [] => none
  | td :: rest =>
    match findContainsNames gs pattern td td.func_name_idx with
    | some n => some n
    | none => findContainsIn gs pattern rest

/-- Source: `ProfileAnalyzer::find_matching_function` — exact match across all
threads wins, then the first substring match, else the pattern verbatim. -/
def ProfileAnalyzer.find_matching_function (a : ProfileAnalyzer) (pattern : String) : String :=
  match findExactIn a.global_strings pattern a.threads with
  | some n => n
  | none =>
    match findContainsIn a.global_strings pattern a.threads with
    | some n => n
    | none => pattern

/-- The resolved function names of the profile, in the iteration order of the
two passes of `find_matching_function` (threads in order, then the
`func_name_idx` column in order). -/
def ProfileAnalyzer.func_names_list (a : ProfileAnalyzer) : List String :=
  (a.threads.map (fun td =>
    td.func_name_idx.map (fun ni => td.get_string ni a.global_strings))).flatten

-- ============================================================================
-- Hotspot aggregation (source: `compute_hotspots`, lines 748-807,
-- the single pass that fills `func_stats` and `total_weight`)
-- ============================================================================

/-- Source: the local `FuncStats` struct of `compute_hotspots`. -/
structure HotFuncStats where
  self_samples : Int := 0
  total_samples : Int := 0
  func_idx : Option Nat := none
  thread_idx : Option Nat := none
  line_samples : List (Nat × Int) := []
  address_samples : List (Nat × Int) := []
deriving Repr, DecidableEq, Inhabited

/-- The `func_stats: HashMap<String, FuncStats>` of `compute_hotspots`. -/
abbrev HotMap := List (String × HotFuncStats)

/-- Leaf block of `compute_hotspots`: `self_samples += weight`, record the
first-seen `(func_idx, thread_idx)`, bump the per-line and per-address
sample maps. -/
def hotLeafUpd (w : Int) (fi ti : Nat) (lineo addro : Option Nat)
    (s : HotFuncStats) : HotFuncStats :=
  let s1 := { s with self_samples := s.self_samples + w }
  let s2 := if s1.func_idx.isNone then
      { s1 with func_idx := some fi, thread_idx := some ti }
    else s1
  let s3 := match lineo with
    | some l => { s2 with line_samples := updAL 0 (· + w) l s2.line_samples }
    | none => s2
  match addro with
  | some ad => { s3 with address_samples := updAL 0 (· + w) ad s3.address_samples }
  | none => s3

/-- Total block of `compute_hotspots`: `total_samples += weight` and record
first-seen indices. -/
def hotTotalUpd (w : Int) (fi ti : Nat) (s : HotFuncStats) : HotFuncStats :=
  let s1 := { s with total_samples := s.total_samples + w }
  if s1.func_idx.isNone then { s1 with func_idx := some fi, thread_idx := some ti }
  else s1

/-- The `seen` loop of `compute_hotspots`: walk the stack's
`(func_idx, frame_idx)` pairs and credit `weight` to `total_samples` on the
first occurrence of each resolved function name. -/
def hotTotalPass (gs : List String) (td : ThreadData) (ti : Nat) (w : Int) :
    List (Nat × Nat) → List String → HotMap → List String × HotMap
  | [], seen, m => (seen, m)
  | (fi, _) :: rest, seen, m =>
    let name := td.get_func_name fi gs
    if name ∈ seen then hotTotalPass gs td ti w rest seen m
    else hotTotalPass gs td ti w rest (name :: seen)
      (updAL {} (hotTotalUpd w fi ti) name m)

/-- Per-sample body of `compute_hotspots`: a `None` stack contributes nothing
to `func_stats`; otherwise the leaf gets self time and every unique function
name in the walk gets total time. -/
def hotProcessSample (gs : List String) (ti : Nat) (td : ThreadData)
    (m : HotMap) (so : Option Nat) (w : Int) : HotMap :=
  match so with
  | none => m
  | some si =>
    let swf := td.walk_stack_with_frames si
    let m1 := match swf.head? with
      | some (lf, lfr) =>
        updAL {} (hotLeafUpd w lf ti (td.get_frame_line lfr) (td.get_frame_address lfr))
          (td.get_func_name lf gs) m
      | none => m
    (hotTotalPass gs td ti w swf [] m1).2

/-- The sample loop of `compute_hotspots` for one thread; `total_weight` is
accumulated for EVERY sample, before the `None`-stack check. -/
def hotSamplesLoop (gs : List String) (ti : Nat) (td : ThreadData) :
    List (Option Nat × Int) → HotMap → Int → HotMap × Int
  | [], m, tw => (m, tw)
  | (so, w) :: rest, m, tw =>
    hotSamplesLoop gs ti td rest (hotProcessSample gs ti td m so w) (tw + w)

/-- The thread filter of `compute_hotspots`:
`if !thread.name.contains(filter) { continue; }`. -/
def threadKeep (filt : Option String) (td : ThreadData) : Bool :=
  match filt with
  | none => true
  | some f => strContains td.name f

/-- The thread loop of `compute_hotspots`; the enumeration index advances on
every thread, including filtered-out ones. -/
def hotThreadsLoop (gs : List String) (filt : Option String) :
    List ThreadData → Nat → HotMap → Int → HotMap × Int
  | [], _, m, tw => (m, tw)
  | td :: rest, ti, m, tw =>
    if threadKeep filt td then
      let r := hotSamplesLoop gs ti td td.samples m tw
      hotThreadsLoop gs filt rest (ti + 1) r.1 r.2
    else hotThreadsLoop gs filt rest (ti + 1) m tw

/-- The aggregation phase of `compute_hotspots` (source lines 748-807):
returns the filled `func_stats` map and `total_weight`.  The presentation
phase of the source (sort by self samples, truncate to `limit`, build
`HotspotEntry` values with percentages) consumes exactly this data and is not
needed by the verified properties. -/
def ProfileAnalyzer.hotspotAggregate (a : ProfileAnalyzer) (filt : Option String) :
    HotMap × Int :=
  hotThreadsLoop a.global_strings filt a.threads 0 [] 0

/-- Total self-samples recorded in a `func_stats` map. -/
def sumSelf (m : HotMap) : Int :=
  (m.map (fun p => p.2.self_samples)).sum

/-- Self samples accumulated for function name `n`. -/
def selfOf (m : HotMap) (n : String) : Int :=
  (getAL {} n m).self_samples

/-- Total samples accumulated for function name `n`. -/
def totalOf (m : HotMap) (n : String) : Int :=
  (getAL {} n m).total_samples

/-- Sum of the weights of all samples of one thread (including samples with a
`null` stack index). -/
def sampleWeightSum (td : ThreadData) : Int :=
  (td.samples.map (fun s => s.2)).sum

/-- Sum of the weights of the samples of one thread whose stack index is
non-`null`. -/
def sampleNonNullWeightSum (td : ThreadData) : Int :=
  ((td.samples.filter (fun s => s.1.isSome)).map (fun s => s.2)).sum

/-- Sum of all sample weights over the threads passing the filter. -/
def keptWeight (filt : Option String) (tds : List ThreadData) : Int :=
  ((tds.filter (threadKeep filt)).map sampleWeightSum).sum

/-- Sum of the non-`null`-stack sample weights over the threads passing the
filter. -/
def keptNonNullWeight (filt : Option String) (tds : List ThreadData) : Int :=
  ((tds.filter (threadKeep filt)).map sampleNonNullWeightSum).sum

/-- Sum of all sample weights of the whole profile (no thread filter). -/
def profileTotalWeight (a : ProfileAnalyzer) : Int :=
  (a.threads.map sampleWeightSum).sum

-- ============================================================================
-- Drilldown (source: `ProfileAnalyzer::drilldown`, lines 1627-1905)
-- ============================================================================

/-- Source: `HotLine` (percentages as exact rationals). -/
structure HotLine where
  line : Nat
  samples : Int
  percent : ℚ
deriving Repr, DecidableEq

/-- Source: `DrilldownCallee`. -/
structure DrilldownCallee where
  name : String
  percent : ℚ
  is_hottest : Option Bool
deriving Repr, DecidableEq

/-- Source: `DrilldownNode`. -/
structure DrilldownNode where
  function : String
  library : Option String
  file_path : Option String
  line_number : Option Nat
  total_samples : Int
  total_percent : ℚ
  self_samples : Int
  self_percent : ℚ
  is_bottleneck : Option Bool
  callees : List DrilldownCallee
  hot_lines : Option (List HotLine)
deriving Repr, DecidableEq

/-- Source: `BottleneckSummary`; the numeric interpolation inside the `reason`
string (`format!` with the percentage) is omitted from the model, no verified
property reads `reason`. -/
structure BottleneckSummary where
  function : String
  library : Option String
  file_path : Option String
  line_number : Option Nat
  self_percent : ℚ
  reason : String
deriving Repr, DecidableEq

/-- Source: `DrilldownResponse`; `suggestions` is modelled as the suggested
function names (the source decorates each with its percentage via
`format!`, which no verified property reads). -/
structure DrilldownResponse where
  root : String
  total_samples : Int
  path : List DrilldownNode
  bottleneck : Option BottleneckSummary
  error : Option String
  suggestions : Option (List String)
deriving Repr, DecidableEq

/-- Source: the local `FuncStats` struct of `drilldown`. -/
structure DrillFuncStats where
  self_samples : Int := 0
  total_samples : Int := 0
  func_idx : Option Nat := none
  thread_idx : Option Nat := none
  line_samples : List (Nat × Int) := []
deriving Repr, DecidableEq, Inhabited

/-- The `func_stats: HashMap<String, FuncStats>` of `drilldown`. -/
abbrev DrillMap := List (String × DrillFuncStats)

/-- The `callee_map: HashMap<String, HashMap<String, CalleeData>>` of
`drilldown` (`CalleeData` is just a sample count). -/
abbrev CalleeMap := List (String × List (String × Int))

/-- Leaf block of `drilldown`'s aggregation pass. -/
def drillLeafUpd (w : Int) (fi ti : Nat) (lineo : Option Nat)
    (s : DrillFuncStats) : DrillFuncStats :=
  let s1 := { s with self_samples := s.self_samples + w }
  let s2 := if s1.func_idx.isNone then
      { s1 with func_idx := some fi, thread_idx := some ti }
    else s1
  match lineo with
  | some l => { s2 with line_samples := updAL 0 (· + w) l s2.line_samples }
  | none => s2

/-- Total block of `drilldown`'s aggregation pass. -/
def drillTotalUpd (w : Int) (fi ti : Nat) (s : DrillFuncStats) : DrillFuncStats :=
  let s1 := { s with total_samples := s.total_samples + w }
  if s1.func_idx.isNone then { s1 with func_idx := some fi, thread_idx := some ti }
  else s1

/-- The `seen` loop of `drilldown` over the precomputed
`(name, func_idx, frame_idx)` triples. -/
def drillTotalPass (ti : Nat) (w : Int) :
    List (String × Nat × Nat) → List String → DrillMap → List String × DrillMap
  | [], seen, fs => (seen, fs)
  | (name, fi, _) :: rest, seen, fs =>
    if name ∈ seen then drillTotalPass ti w rest seen fs
    else drillTotalPass ti w rest (name :: seen)
      (updAL {} (drillTotalUpd w fi ti) name fs)

/-- The caller/callee pair loop of `drilldown`: for adjacent walk entries,
index `i` is the callee (leaf side), index `i + 1` the caller. -/
def drillPairsLoop (w : Int) : List (String × Nat × Nat) → CalleeMap → CalleeMap
  | a :: b :: rest, cm =>
    drillPairsLoop w (b :: rest) (updAL [] (updAL 0 (· + w) a.1) b.1 cm)
  | _, cm => cm

/-- Per-sample body of `drilldown`'s aggregation pass. -/
def drillProcessSample (gs : List String) (ti : Nat) (td : ThreadData)
    (fs : DrillMap) (cm : CalleeMap) (so : Option Nat) (w : Int) :
    DrillMap × CalleeMap :=
  match so with
  | none => (fs, cm)
  | some si =>
    let finfo := (td.walk_stack_with_frames si).map
      (fun p => (td.get_func_name p.1 gs, p.1, p.2))
    let fs1 := match finfo.head? with
      | some (name, fi, fri) =>
        updAL {} (drillLeafUpd w fi ti (td.get_frame_line fri)) name fs
      | none => fs
    let fs2 := (drillTotalPass ti w finfo [] fs1).2
    (fs2, drillPairsLoop w finfo cm)

/-- Sample loop of `drilldown` for one thread; `total_weight` is accumulated
for every sample, BEFORE the `None`-stack check. -/
def drillSamplesLoop (gs : List String) (ti : Nat) (td : ThreadData) :
    List (Option Nat × Int) → DrillMap → CalleeMap → Int → DrillMap × CalleeMap × Int
  | [], fs, cm, tw => (fs, cm, tw)
  | (so, w) :: rest, fs, cm, tw =>
    let r := drillProcessSample gs ti td fs cm so w
    drillSamplesLoop gs ti td rest r.1 r.2 (tw + w)

/-- Thread loop of `drilldown`'s aggregation pass (no thread filter). -/
def drillThreadsLoop (gs : List String) :
    List ThreadData → Nat → DrillMap → CalleeMap → Int → DrillMap × CalleeMap × Int
  | [], _, fs, cm, tw => (fs, cm, tw)
  | td :: rest, ti, fs, cm, tw =>
    let r := drillSamplesLoop gs ti td td.samples fs cm tw
    drillThreadsLoop gs rest (ti + 1) r.1 r.2.1 r.2.2

/-- Self samples looked up for the current function
(`stats.map(..).unwrap_or((0, 0))`). -/
def drillSelfSamples (fs : DrillMap) (current : String) : Int :=
  match findAL current fs with
  | some s => s.self_samples
  | none => 0

/-- Total samples looked up for the current function. -/
def drillTotalSamples (fs : DrillMap) (current : String) : Int :=
  match findAL current fs with
  | some s => s.total_samples
  | none => 0

/-- `self_percent = 100 * self_samples / total_weight` guarded by
`total_weight > 0`. -/
def drillSelfPercent (fs : DrillMap) (tw : Int) (current : String) : ℚ :=
  if 0 < tw then 100 * (drillSelfSamples fs current : ℚ) / (tw : ℚ) else 0

/-- `total_percent`, computed analogously. -/
def drillTotalPercent (fs : DrillMap) (tw : Int) (current : String) : ℚ :=
  if 0 < tw then 100 * (drillTotalSamples fs current : ℚ) / (tw : ℚ) else 0

/-- The `(library, file_path, line_number)` metadata of a drilldown node,
recovered from the first-seen `(func_idx, thread_idx)` of the function. -/
def drillNodeMeta (a : ProfileAnalyzer) (fs : DrillMap) (current : String) :
    Option String × Option String × Option Nat :=
  match findAL current fs with
  | some s =>
    match s.func_idx, s.thread_idx with
    | some fi, some ti =>
      let td := a.threads.getD ti default
      let li := td.get_func_lib_index fi
      (li.bind (fun idx => (a.libs.get? idx).map LibInfo.name),
       td.get_func_file fi a.global_strings,
       td.get_func_line fi)
    | _, _ => (none, none, none)
  | none => (none, none, none)

/-- The callee list of a drilldown node: percentages normalised over the
sibling sum, sorted descending by percent, the first (hottest) entry marked. -/
def drillNodeCallees (cm : CalleeMap) (current : String) : List DrilldownCallee :=
  let cd := findAL current cm
  let callee_total : Int := match cd with
    | some c => (c.map (fun p => p.2)).sum
    | none => 0
  let callees0 : List DrilldownCallee := match cd with
    | some c => c.map (fun p =>
        { name := p.1,
          percent := if 0 < callee_total then 100 * (p.2 : ℚ) / (callee_total : ℚ) else 0,
          is_hottest := none })
    | none => []
  match sortDescBy (fun c => c.percent) callees0 with
  | [] => []
  | c :: rest => { c with is_hottest := some true } :: rest

/-- The `hot_lines` attached to a bottleneck node: per-line samples sorted
descending, percentages normalised by the node's self samples (0 when the
self samples are not positive). -/
def drillNodeHotLines (fs : DrillMap) (current : String) : Option (List HotLine) :=
  match findAL current fs with
  | some s =>
    if s.line_samples.isEmpty then none
    else some (sortDescBy (fun h => h.samples) (s.line_samples.map (fun p =>
      { line := p.1, samples := p.2,
        percent := if 0 < drillSelfSamples fs current then
          100 * (p.2 : ℚ) / (drillSelfSamples fs current : ℚ)
        else 0 })))
  | none => none

/-- One iteration body of the drilldown hot-path loop: the node pushed for
`current` (source lines 1737-1840). -/
def drillMakeNode (a : ProfileAnalyzer) (fs : DrillMap) (cm : CalleeMap)
    (tw : Int) (T : ℚ) (current : String) : DrilldownNode :=
  let meta := drillNodeMeta a fs current
  let sp := drillSelfPercent fs tw current
  { function := current,
    library := meta.1,
    file_path := meta.2.1,
    line_number := meta.2.2,
    total_samples := drillTotalSamples fs current,
    total_percent := drillTotalPercent fs tw current,
    self_samples := drillSelfSamples fs current,
    self_percent := sp,
    is_bottleneck := if T < sp then some true else none,
    callees := drillNodeCallees cm current,
    hot_lines := if T < sp then drillNodeHotLines fs current else none }

/-- The `BottleneckSummary` recorded when a node is a bottleneck. -/
def drillMakeBn (node : DrilldownNode) : BottleneckSummary :=
  { function := node.function, library := node.library,
    file_path := node.file_path, line_number := node.line_number,
    self_percent := node.self_percent,
    reason := "High self-time indicates this function\x27s own code is the bottleneck" }

/-- Cycle escape: among the previous node's callees not yet visited, the
maximal-percent one, the LAST such on ties (Rust `Iterator::max_by`). -/
def lastMaxByPercent : List DrilldownCallee → Option DrilldownCallee
  | [] => none
  | c :: rest =>
    match lastMaxByPercent rest with
    | none => some c
    | some m => if m.percent < c.percent then some c else some m

/-- Source lines 1724-1731: filter out visited callees, then `max_by` on the
percent. -/
def pickEscape (visited : List String) (cs : List DrilldownCallee) :
    Option DrilldownCallee :=
  lastMaxByPercent (cs.filter (fun c => ! visited.contains c.name))

/-- The hot-path loop of `drilldown` (source lines 1718-1864):
`for _depth in 0..max_depth` with a visited set, cycle escape, and an early
break when a bottleneck is found. -/
def drillFollow (a : ProfileAnalyzer) (fs : DrillMap) (cm : CalleeMap)
    (tw : Int) (T : ℚ) :
    Nat → String → List String → List DrilldownNode →
    List DrilldownNode × Option BottleneckSummary
  | 0, _, _, path => (path, none)
  | d + 1, current, visited, path =>
    if current ∈ visited then
      match path.getLast? with
      | some prev =>
        match pickEscape visited prev.callees with
        | some nxt => drillFollow a fs cm tw T d nxt.name visited path
        | none => (path, none)
      | none => (path, none)
    else
      let node := drillMakeNode a fs cm tw T current
      match node.is_bottleneck with
      | some _ => (path ++ [node], some (drillMakeBn node))
      | none =>
        match node.callees.head? with
        | some h => drillFollow a fs cm tw T d h.name (current :: visited) (path ++ [node])
        | none => (path ++ [node], none)

/-- Source: `ProfileAnalyzer::drilldown`.  `total_samples` of the response is
the `total_weight` accumulated over ALL samples of ALL threads (the
accumulation happens before the `None`-stack check and regardless of the
resolved root). -/
def ProfileAnalyzer.drilldown (a : ProfileAnalyzer) (function_pattern : String)
    (max_depth : Nat) (threshold_percent : ℚ) : DrilldownResponse :=
  let agg := drillThreadsLoop a.global_strings a.threads 0 [] [] 0
  let fs := agg.1
  let cm := agg.2.1
  let tw := agg.2.2
  let root := a.find_matching_function function_pattern
  let fb := drillFollow a fs cm tw threshold_percent max_depth root [] []
  let root_has := ((findAL root fs).map (fun s => decide (0 < s.total_samples))).getD false
  let err : Option String × Option (List String) :=
    if root_has then (none, none)
    else
      (some ("Function \x27" ++ function_pattern ++
         "\x27 not found or has no samples. Try one of the top functions listed in \x27suggestions\x27."),
       some (((sortDescBy (fun p => p.2)
         (fs.map (fun p => (p.1, p.2.total_samples)))).take 5).map (fun p => p.1)))
  { root := root,
    total_samples := tw,
    path := fb.1,
    bottleneck := fb.2,
    error := err.1,
    suggestions := err.2 }

-- ============================================================================
-- Concrete profiles used as counterexamples and witnesses
-- ============================================================================

/-- A well-formed two-function thread: function "main" (func 0) calls
"work" (func 1); sample 0 lands on `main` alone (stack 0), sample 1 on
`main → work` (stack 1, leaf `work`). -/
def tdPos : ThreadData :=
  { name := "MainThread", pid := "1", tid := "1", is_main_thread := true,
    samples := [(some 0, 1), (some 1, 3)],
    stack_prefix_col := [none, some 0],
    stack_frame := [0, 1],
    frame_func := [0, 1],
    frame_address := [none, none],
    frame_line := [none, none],
    frame_native_symbol := [none, none],
    func_name_idx := [0, 1],
    func_file_idx := [none, none],
    func_line := [none, none],
    func_resource := [none, none],
    native_symbols := [],
    resource_lib := [],
    string_table := ["main", "work"] }

/-- A well-formed one-thread profile. -/
def posA : ProfileAnalyzer :=
  { product_name := "p", sampling_interval_ms := 1, threads := [tdPos],
    global_strings := [], libs := [] }

/-- A profile whose single sample has a `null` stack index and weight 5. -/
def nullA : ProfileAnalyzer :=
  { product_name := "p", sampling_interval_ms := 1,
    threads := [{ name := "t", samples := [(none, 5)] }],
    global_strings := [], libs := [] }

/-- A thread with a negative-weight sample: sample 0 is stack `[A]` with
weight 1, sample 1 is stack `[B, A]` (leaf `B`) with weight `-1`. -/
def tdNeg : ThreadData :=
  { name := "t",
    samples := [(some 0, 1), (some 1, -1)],
    stack_prefix_col := [none, some 0],
    stack_frame := [0, 1],
    frame_func := [0, 1],
    func_name_idx := [0, 1],
    string_table := ["A", "B"] }

/-- A profile containing `tdNeg`. -/
def negA : ProfileAnalyzer :=
  { product_name := "p", threads := [tdNeg], global_strings := [], libs := [] }

/-- A thread whose stack table has a self-loop: `prefix[0] = Some(0)`.
On this input the source's `walk_stack` loop never terminates. -/
def cyclicThread : ThreadData :=
  { name := "cyc",
    samples := [(some 0, 1)],
    stack_prefix_col := [some 0],
    stack_frame := [0],
    frame_func := [0],
    func_name_idx := [0],
    string_table := ["f"] }

/-- A thread for the out-of-range accessor counterexample: entry 0 of the
frame table maps to function 0, so the out-of-range fallback value `0` is
indistinguishable from a legitimate lookup result. -/
def tdC9 : ThreadData :=
  { name := "t",
    stack_prefix_col := [none, none],
    stack_frame := [0, 5],
    frame_func := [0, 3],
    string_table := [] }

/-- A raw profile whose declared `samples.length` (5) disagrees with the
actual column lengths (1). -/
def badRaw : RawProfile :=
  { meta := { product := "p", interval := 1, start_time := 0 },
    libs := [],
    threads := [{
      name := "t", pid := "1", tid := "1", is_main_thread := true,
      process_name := "p",
      samples := { stack := [none], weight := [1], length := 5 },
      stack_table := { prefix_col := [], frame := [], length := 0 },
      frame_table := { func := [], line := [], address := [], native_symbol := [], length := 0 },
      func_table := { name := [], file_name := [], line_number := [], resource := [], length := 0 },
      native_symbols := none, resource_table := none, string_table := [] }],
    shared := none }

/-- The address column of the spec's decoding example. -/
def exampleCol : List (Option Int) := [some 5, some (-1), some 10]

-- ============================================================================
-- Helper lemmas
-- ============================================================================

/-- Unfolding: the fueled walk ends immediately when `current` is absent. -/
theorem walkStackAux_none (td : ThreadData) (fuel : Nat) :
    walkStackAux td fuel none = some [] := by
  cases fuel <;> rfl

/-- Unfolding: one iteration of the fueled walk. -/
theorem walkStackAux_succ (td : ThreadData) (fuel : Nat) (idx : Nat) :
    walkStackAux td (fuel + 1) (some idx) =
      (walkStackAux td fuel (td.get_stack_prefix_entry idx)).map
        (fun rest =>
          (td.get_frame_func (td.get_stack_frame idx), td.get_stack_frame idx) :: rest) :=
  rfl

/-- The bounds-checked prefix getter agrees with `getD` on the column. -/
theorem get_stack_prefix_entry_eq (td : ThreadData) (i : Nat) :
    td.get_stack_prefix_entry i = td.stack_prefix_col.getD i none := by
  unfold ThreadData.get_stack_prefix_entry
  split
  · rfl
  · rw [List.getD_eq_default]
    omega

/-- Meaning of the Boolean well-formedness check: every present prefix link
decreases the stack index. -/
theorem stackParentsDec_spec (td : ThreadData) (h : stackParentsDec td = true) :
    ∀ i j, td.stack_prefix_col.getD i none = some j → j < i := by
  intro i j hij
  by_cases hi : i < td.stack_prefix_col.length
  · have hall := List.all_eq_true.mp h i (List.mem_range.mpr hi)
    rw [hij] at hall
    exact of_decide_eq_true hall
  · rw [List.getD_eq_default _ _ (by omega)] at hij
    cases hij

/-- On a decreasing-prefix stack table the fueled walk completes whenever the
fuel exceeds the starting index. -/
theorem walkStackAux_isSome (td : ThreadData) (h : stackParentsDec td = true) :
    ∀ i fuel, i < fuel → (walkStackAux td fuel (some i)).isSome = true := by
  intro i
  induction i using Nat.strong_induction_on with
  | _ i IH =>
    intro fuel hfuel
    cases fuel with
    | zero => omega
    | succ f =>
      rw [walkStackAux_succ]
      cases hp : td.get_stack_prefix_entry i with
      | none => rw [walkStackAux_none]; rfl
      | some j =>
        rw [get_stack_prefix_entry_eq] at hp
        have hj : j < i := stackParentsDec_spec td h i j hp
        have hrec := IH j hj f (by omega)
        cases hwj : walkStackAux td f (some j) with
        | none => rw [hwj] at hrec; cases hrec
        | some l => rfl

/-- On a decreasing-prefix stack table every walk is non-empty and starts at
the addressed node's own `(func, frame)` pair. -/
theorem walk_swf_shape (td : ThreadData) (h : stackParentsDec td = true) (i : Nat) :
    ∃ rest, td.walk_stack_with_frames i =
      (td.get_frame_func (td.get_stack_frame i), td.get_stack_frame i) :: rest := by
  unfold ThreadData.walk_stack_with_frames
  rw [walkStackAux_succ]
  have hs : (walkStackAux td td.stack_prefix_col.length
      (td.get_stack_prefix_entry i)).isSome = true := by
    cases hp : td.get_stack_prefix_entry i with
    | none => rw [walkStackAux_none]; rfl
    | some j =>
      have hir : i < td.stack_prefix_col.length := by
        by_contra hni
        have hnone : td.get_stack_prefix_entry i = none := by
          unfold ThreadData.get_stack_prefix_entry
          rw [if_neg hni]
        rw [hnone] at hp
        cases hp
      rw [get_stack_prefix_entry_eq] at hp
      have hj : j < i := stackParentsDec_spec td h i j hp
      exact walkStackAux_isSome td h j _ (by omega)
  obtain ⟨l, hl⟩ := Option.isSome_iff_exists.mp hs
  rw [hl]
  exact ⟨l, rfl⟩

/-- Lookup after update: the updated key sees `f` applied to its previous
(or default) value; other keys are untouched. -/
theorem getAL_updAL {α β : Type} [DecidableEq α] (d : β) (f : β → β) (k k' : α) :
    ∀ m : List (α × β),
      getAL d k (updAL d f k' m) = if k = k' then f (getAL d k m) else getAL d k m := by
  intro m
  induction m with
  | nil =>
    by_cases h : k = k' <;> simp [updAL, getAL, h]
  | cons p rest IH =>
    obtain ⟨k2, v⟩ := p
    by_cases h1 : k' = k2
    · subst h1
      by_cases h2 : k = k'
      · subst h2; simp [updAL, getAL]
      · simp [updAL, getAL, h2]
    · by_cases h2 : k = k2
      · subst h2
        have hk : ¬k = k' := fun e => h1 e.symm
        simp [updAL, getAL, h1, hk]
      · simp [updAL, getAL, h1, h2, IH]

/-- The leaf update adds the weight to `self_samples`. -/
theorem hotLeafUpd_self (w : Int) (fi ti : Nat) (lineo addro : Option Nat)
    (s : HotFuncStats) :
    (hotLeafUpd w fi ti lineo addro s).self_samples = s.self_samples + w := by
  unfold hotLeafUpd
  cases lineo <;> cases addro <;> dsimp only <;> split <;> rfl

/-- The leaf update does not change `total_samples`. -/
theorem hotLeafUpd_total (w : Int) (fi ti : Nat) (lineo addro : Option Nat)
    (s : HotFuncStats) :
    (hotLeafUpd w fi ti lineo addro s).total_samples = s.total_samples := by
  unfold hotLeafUpd
  cases lineo <;> cases addro <;> dsimp only <;> split <;> rfl

/-- The total update adds the weight to `total_samples`. -/
theorem hotTotalUpd_total (w : Int) (fi ti : Nat) (s : HotFuncStats) :
    (hotTotalUpd w fi ti s).total_samples = s.total_samples + w := by
  unfold hotTotalUpd
  dsimp only
  split <;> rfl

/-- The total update does not change `self_samples`. -/
theorem hotTotalUpd_self (w : Int) (fi ti : Nat) (s : HotFuncStats) :
    (hotTotalUpd w fi ti s).self_samples = s.self_samples := by
  unfold hotTotalUpd
  dsimp only
  split <;> rfl

/-- Updating one entry with a function that adds `c` to `self_samples` adds
`c` to the map-wide self-sample sum. -/
theorem sumSelf_updAL (k : String) (f : HotFuncStats → HotFuncStats) (c : Int)
    (hf : ∀ v, (f v).self_samples = v.self_samples + c) :
    ∀ m : HotMap, sumSelf (updAL {} f k m) = sumSelf m + c := by
  intro m
  induction m with
  | nil => simp [updAL, sumSelf, hf]
  | cons p rest IH =>
    obtain ⟨k2, v⟩ := p
    by_cases h : k = k2
    · simp [updAL, h, sumSelf, hf]
      ring
    · simp only [updAL, if_neg h, sumSelf, List.map_cons, List.sum_cons] at *
      rw [IH]
      ring

/-- The total-time pass never changes the map-wide self-sample sum. -/
theorem sumSelf_hotTotalPass (gs : List String) (td : ThreadData) (ti : Nat) (w : Int) :
    ∀ (l : List (Nat × Nat)) (seen : List String) (m : HotMap),
      sumSelf (hotTotalPass gs td ti w l seen m).2 = sumSelf m := by
  intro l
  induction l with
  | nil => intro seen m; rfl
  | cons p rest IH =>
    intro seen m
    obtain ⟨fi, fr⟩ := p
    unfold hotTotalPass
    dsimp only
    split
    · exact IH _ _
    · rw [IH, sumSelf_updAL _ _ 0 (fun v => by rw [hotTotalUpd_self]; ring)]
      ring

/-- Effect of one sample on the self-sample sum: a `null`-stack sample
contributes nothing, a sample with a stack contributes exactly its weight
(to the leaf function). -/
theorem sumSelf_hotProcessSample (gs : List String) (ti : Nat) (td : ThreadData)
    (h : stackParentsDec td = true) (m : HotMap) (so : Option Nat) (w : Int) :
    sumSelf (hotProcessSample gs ti td m so w) =
      sumSelf m + (if so.isSome then w else 0) := by
  cases so with
  | none => simp [hotProcessSample]
  | some si =>
    obtain ⟨rest, hw⟩ := walk_swf_shape td h si
    simp only [hotProcessSample, hw, List.head?_cons, Option.isSome_some, if_pos]
    rw [sumSelf_hotTotalPass,
      sumSelf_updAL _ _ w (fun v => hotLeafUpd_self w _ ti _ _ v)]

/-- Effect of the per-thread sample loop: `total_weight` grows by the sum of
all weights, the self-sample sum by the sum of non-`null`-stack weights. -/
theorem hotSamplesLoop_spec (gs : List String) (ti : Nat) (td : ThreadData)
    (h : stackParentsDec td = true) :
    ∀ (samples : List (Option Nat × Int)) (m : HotMap) (tw : Int),
      (hotSamplesLoop gs ti td samples m tw).2 = tw + (samples.map (fun s => s.2)).sum ∧
      sumSelf (hotSamplesLoop gs ti td samples m tw).1 =
        sumSelf m + ((samples.filter (fun s => s.1.isSome)).map (fun s => s.2)).sum := by
  intro samples
  induction samples with
  | nil => intro m tw; exact ⟨by simp [hotSamplesLoop], by simp [hotSamplesLoop]⟩
  | cons s rest IH =>
    intro m tw
    obtain ⟨so, w⟩ := s
    unfold hotSamplesLoop
    constructor
    · rw [(IH _ _).1]
      simp
      ring
    · rw [(IH _ _).2, sumSelf_hotProcessSample gs ti td h]
      cases so with
      | none => simp
      | some si => simp [List.filter_cons]; ring

/-- Effect of the thread loop of `compute_hotspots`. -/
theorem hotThreadsLoop_spec (gs : List String) (filt : Option String) :
    ∀ tds : List ThreadData, (∀ td ∈ tds, stackParentsDec td = true) →
    ∀ (ti : Nat) (m : HotMap) (tw : Int),
      (hotThreadsLoop gs filt tds ti m tw).2 = tw + keptWeight filt tds ∧
      sumSelf (hotThreadsLoop gs filt tds ti m tw).1 =
        sumSelf m + keptNonNullWeight filt tds := by
  intro tds
  induction tds with
  | nil =>
    intro _ ti m tw
    exact ⟨by simp [hotThreadsLoop, keptWeight], by simp [hotThreadsLoop, keptNonNullWeight]⟩
  | cons td rest IH =>
    intro hall ti m tw
    have htd : stackParentsDec td = true := hall td (by simp)
    have hrest : ∀ t ∈ rest, stackParentsDec t = true := fun t ht => hall t (by simp [ht])
    unfold hotThreadsLoop
    dsimp only
    split
    · rename_i hkeep
      constructor
      · rw [(IH hrest _ _ _).1, (hotSamplesLoop_spec gs ti td htd td.samples m tw).1]
        simp [keptWeight, List.filter_cons, hkeep, sampleWeightSum]
        ring
      · rw [(IH hrest _ _ _).2, (hotSamplesLoop_spec gs ti td htd td.samples m tw).2]
        simp [keptNonNullWeight, List.filter_cons, hkeep, sampleNonNullWeightSum]
        ring
    · rename_i hkeep
      constructor
      · rw [(IH hrest _ _ _).1]
        simp [keptWeight, List.filter_cons, hkeep]
      · rw [(IH hrest _ _ _).2]
        simp [keptNonNullWeight, List.filter_cons, hkeep]

/-- Pointwise self samples after an update whose function adds `c` to
`self_samples`. -/
theorem selfOf_updAL (f : HotFuncStats → HotFuncStats) (c : Int)
    (hf : ∀ v, (f v).self_samples = v.self_samples + c) (k : String) (m : HotMap)
    (n : String) :
    selfOf (updAL {} f k m) n = selfOf m n + (if n = k then c else 0) := by
  unfold selfOf
  rw [getAL_updAL]
  by_cases h : n = k
  · simp [h, hf]
  · simp [h]

/-- Pointwise total samples after an update whose function adds `c` to
`total_samples`. -/
theorem totalOf_updAL (f : HotFuncStats → HotFuncStats) (c : Int)
    (hf : ∀ v, (f v).total_samples = v.total_samples + c) (k : String) (m : HotMap)
    (n : String) :
    totalOf (updAL {} f k m) n = totalOf m n + (if n = k then c else 0) := by
  unfold totalOf
  rw [getAL_updAL]
  by_cases h : n = k
  · simp [h, hf]
  · simp [h]

/-- Pointwise effect of the total-time pass on `total_samples`: weight is
credited exactly to the names occurring in the remaining walk that are not in
`seen` yet. -/
theorem totalOf_hotTotalPass (gs : List String) (td : ThreadData) (ti : Nat) (w : Int) :
    ∀ (l : List (Nat × Nat)) (seen : List String) (m : HotMap) (n : String),
      totalOf (hotTotalPass gs td ti w l seen m).2 n =
        totalOf m n +
          (if n ∈ l.map (fun p => td.get_func_name p.1 gs) ∧ n ∉ seen then w else 0) := by
  intro l
  induction l with
  | nil => intro seen m n; simp [hotTotalPass]
  | cons p rest IH =>
    intro seen m n
    obtain ⟨fi, fr⟩ := p
    unfold hotTotalPass
    dsimp only
    split
    · rename_i hseen
      rw [IH]
      by_cases hn : n = td.get_func_name fi gs
      · simp [hn, hseen, List.mem_cons]
      · simp only [add_right_inj]
        refine if_congr ?_ rfl rfl
        simp [List.mem_cons, hn]
    · rename_i hseen
      rw [IH, totalOf_updAL _ w (fun v => hotTotalUpd_total w fi ti v)]
      by_cases hn : n = td.get_func_name fi gs
      · simp [hn, hseen, List.mem_cons]
      · simp only [if_neg hn, add_zero, add_right_inj]
        refine if_congr ?_ rfl rfl
        simp [List.mem_cons, hn]

/-- The total-time pass never changes any function's self samples. -/
theorem selfOf_hotTotalPass (gs : List String) (td : ThreadData) (ti : Nat) (w : Int) :
    ∀ (l : List (Nat × Nat)) (seen : List String) (m : HotMap) (n : String),
      selfOf (hotTotalPass gs td ti w l seen m).2 n = selfOf m n := by
  intro l
  induction l with
  | nil => intro seen m n; rfl
  | cons p rest IH =>
    intro seen m n
    obtain ⟨fi, fr⟩ := p
    unfold hotTotalPass
    dsimp only
    split
    · exact IH _ _ _
    · rw [IH, selfOf_updAL _ 0 (fun v => by rw [hotTotalUpd_self]; ring)]
      simp

/-- The leaf update never changes any function's total samples. -/
theorem totalOf_hotLeaf (w : Int) (fi ti : Nat) (lineo addro : Option Nat)
    (k : String) (m : HotMap) (n : String) :
    totalOf (updAL {} (hotLeafUpd w fi ti lineo addro) k m) n = totalOf m n := by
  rw [totalOf_updAL _ 0 (fun v => by rw [hotLeafUpd_total]; ring)]
  simp

/-- One sample preserves the pointwise invariant `self ≤ total` when its
weight is non-negative: the leaf's name always occurs in the walk (as its
head), so whatever weight is credited to self is also credited to total. -/
theorem hotProcessSample_mono (gs : List String) (ti : Nat) (td : ThreadData)
    (m : HotMap) (so : Option Nat) (w : Int) (hw : 0 ≤ w) (n : String)
    (hInv : selfOf m n ≤ totalOf m n) :
    selfOf (hotProcessSample gs ti td m so w) n ≤
      totalOf (hotProcessSample gs ti td m so w) n := by
  cases so with
  | none => exact hInv
  | some si =>
    cases hswf : td.walk_stack_with_frames si with
    | nil =>
      simp only [hotProcessSample, hswf, List.head?_nil, hotTotalPass]
      exact hInv
    | cons p rest =>
      obtain ⟨lf, lfr⟩ := p
      simp only [hotProcessSample, hswf, List.head?_cons]
      rw [selfOf_hotTotalPass, totalOf_hotTotalPass, totalOf_hotLeaf,
        selfOf_updAL _ w (fun v => hotLeafUpd_self w lf ti _ _ v)]
      have hnil : (n ∉ ([] : List String)) := List.not_mem_nil n
      by_cases hn : n = td.get_func_name lf gs
      · have hmem : n ∈ ((lf, lfr) :: rest).map (fun p => td.get_func_name p.1 gs) := by
          simp [hn]
        rw [if_pos hn, if_pos ⟨hmem, hnil⟩]
        omega
      · rw [if_neg hn, add_zero]
        by_cases hmem : n ∈ ((lf, lfr) :: rest).map (fun p => td.get_func_name p.1 gs)
        · rw [if_pos ⟨hmem, hnil⟩]
          omega
        · rw [if_neg (fun hcon => hmem hcon.1)]
          omega

/-- The per-thread sample loop preserves the pointwise invariant for
non-negative weights. -/
theorem hotSamplesLoop_mono (gs : List String) (ti : Nat) (td : ThreadData) :
    ∀ (samples : List (Option Nat × Int)), (∀ s ∈ samples, 0 ≤ s.2) →
    ∀ (m : HotMap) (tw : Int) (n : String), selfOf m n ≤ totalOf m n →
      selfOf (hotSamplesLoop gs ti td samples m tw).1 n ≤
        totalOf (hotSamplesLoop gs ti td samples m tw).1 n := by
  intro samples
  induction samples with
  | nil => intro _ m tw n hInv; exact hInv
  | cons s rest IH =>
    intro hws m tw n hInv
    obtain ⟨so, w⟩ := s
    unfold hotSamplesLoop
    exact IH (fun s hs => hws s (by simp [hs])) _ _ n
      (hotProcessSample_mono gs ti td m so w (hws (so, w) (by simp)) n hInv)

/-- The thread loop preserves the pointwise invariant for non-negative
weights. -/
theorem hotThreadsLoop_mono (gs : List String) (filt : Option String) :
    ∀ tds : List ThreadData, (∀ td ∈ tds, ∀ s ∈ td.samples, 0 ≤ s.2) →
    ∀ (ti : Nat) (m : HotMap) (tw : Int) (n : String), selfOf m n ≤ totalOf m n →
      selfOf (hotThreadsLoop gs filt tds ti m tw).1 n ≤
        totalOf (hotThreadsLoop gs filt tds ti m tw).1 n := by
  intro tds
  induction tds with
  | nil => intro _ ti m tw n hInv; exact hInv
  | cons td rest IH =>
    intro hall ti m tw n hInv
    have hrest : ∀ t ∈ rest, ∀ s ∈ t.samples, 0 ≤ s.2 :=
      fun t ht => hall t (by simp [ht])
    unfold hotThreadsLoop
    dsimp only
    split
    · exact IH hrest _ _ _ n
        (hotSamplesLoop_mono gs ti td td.samples (hall td (by simp)) m tw n hInv)
    · exact IH hrest _ _ _ n hInv

/-- Key membership after an update is membership before, or the updated key. -/
theorem mem_keys_updAL {α β : Type} [DecidableEq α] (d : β) (f : β → β) (k : α) :
    ∀ (m : List (α × β)) (x : α),
      x ∈ (updAL d f k m).map Prod.fst → x ∈ m.map Prod.fst ∨ x = k := by
  intro m
  induction m with
  | nil => intro x hx; simp [updAL] at hx; exact Or.inr hx
  | cons p rest IH =>
    intro x hx
    obtain ⟨k2, v⟩ := p
    by_cases h : k = k2
    · subst h
      simp [updAL] at hx
      simp
      tauto
    · simp only [updAL, if_neg h, List.map_cons, List.mem_cons] at hx
      rcases hx with hx | hx
      · simp [hx]
      · rcases IH x hx with h2 | h2
        · simp [h2]
        · exact Or.inr h2

/-- Updating preserves the no-duplicate-keys invariant of the maps. -/
theorem nodup_keys_updAL {α β : Type} [DecidableEq α] (d : β) (f : β → β) (k : α) :
    ∀ m : List (α × β), (m.map Prod.fst).Nodup → ((updAL d f k m).map Prod.fst).Nodup := by
  intro m
  induction m with
  | nil => intro _; simp [updAL]
  | cons p rest IH =>
    intro hnd
    obtain ⟨k2, v⟩ := p
    simp only [List.map_cons, List.nodup_cons] at hnd
    by_cases h : k = k2
    · subst h
      have hupd : updAL d f k ((k, v) :: rest) = (k, f v) :: rest := by
        simp [updAL]
      rw [hupd]
      simp only [List.map_cons, List.nodup_cons]
      exact hnd
    · simp only [updAL, if_neg h, List.map_cons, List.nodup_cons]
      constructor
      · intro hcon
        rcases mem_keys_updAL d f k rest k2 hcon with h2 | h2
        · exact hnd.1 h2
        · exact h h2.symm
      · exact IH hnd.2

/-- In a map with no duplicate keys, a member pair is what lookup returns. -/
theorem getAL_of_mem {α β : Type} [DecidableEq α] (d : β) :
    ∀ (m : List (α × β)), (m.map Prod.fst).Nodup → ∀ p ∈ m, getAL d p.1 m = p.2 := by
  intro m
  induction m with
  | nil => intro _ p hp; cases hp
  | cons q rest IH =>
    intro hnd p hp
    obtain ⟨k2, v⟩ := q
    simp only [List.map_cons, List.nodup_cons] at hnd
    rcases List.mem_cons.mp hp with hp | hp
    · subst hp
      simp [getAL]
    · have hne : p.1 ≠ k2 := by
        intro he
        apply hnd.1
        rw [← he]
        exact List.mem_map.mpr ⟨p, hp, rfl⟩
      simp only [getAL, if_neg hne]
      exact IH hnd.2 p hp

/-- The total-time pass preserves the no-duplicate-keys invariant. -/
theorem nodup_hotTotalPass (gs : List String) (td : ThreadData) (ti : Nat) (w : Int) :
    ∀ (l : List (Nat × Nat)) (seen : List String) (m : HotMap),
      (m.map Prod.fst).Nodup → ((hotTotalPass gs td ti w l seen m).2.map Prod.fst).Nodup := by
  intro l
  induction l with
  | nil => intro seen m h; exact h
  | cons p rest IH =>
    intro seen m h
    obtain ⟨fi, fr⟩ := p
    unfold hotTotalPass
    dsimp only
    split
    · exact IH _ _ h
    · exact IH _ _ (nodup_keys_updAL _ _ _ m h)

/-- One sample preserves the no-duplicate-keys invariant. -/
theorem nodup_hotProcessSample (gs : List String) (ti : Nat) (td : ThreadData)
    (m : HotMap) (so : Option Nat) (w : Int)
    (h : (m.map Prod.fst).Nodup) :
    ((hotProcessSample gs ti td m so w).map Prod.fst).Nodup := by
  cases so with
  | none => exact h
  | some si =>
    simp only [hotProcessSample]
    cases hswf : (td.walk_stack_with_frames si).head? with
    | none =>
      simp only [hswf]
      exact nodup_hotTotalPass gs td ti w _ _ _ h
    | some p =>
      obtain ⟨lf, lfr⟩ := p
      simp only [hswf]
      exact nodup_hotTotalPass gs td ti w _ _ _ (nodup_keys_updAL _ _ _ m h)

/-- The sample loop preserves the no-duplicate-keys invariant. -/
theorem nodup_hotSamplesLoop (gs : List String) (ti : Nat) (td : ThreadData) :
    ∀ (samples : List (Option Nat × Int)) (m : HotMap) (tw : Int),
      (m.map Prod.fst).Nodup → ((hotSamplesLoop gs ti td samples m tw).1.map Prod.fst).Nodup := by
  intro samples
  induction samples with
  | nil => intro m tw h; exact h
  | cons s rest IH =>
    intro m tw h
    obtain ⟨so, w⟩ := s
    unfold hotSamplesLoop
    exact IH _ _ (nodup_hotProcessSample gs ti td m so w h)

/-- The thread loop preserves the no-duplicate-keys invariant. -/
theorem nodup_hotThreadsLoop (gs : List String) (filt : Option String) :
    ∀ (tds : List ThreadData) (ti : Nat) (m : HotMap) (tw : Int),
      (m.map Prod.fst).Nodup → ((hotThreadsLoop gs filt tds ti m tw).1.map Prod.fst).Nodup := by
  intro tds
  induction tds with
  | nil => intro ti m tw h; exact h
  | cons td rest IH =>
    intro ti m tw h
    unfold hotThreadsLoop
    dsimp only
    split
    · exact IH _ _ _ (nodup_hotSamplesLoop gs ti td td.samples m tw h)
    · exact IH _ _ _ h

-- ============================================================================
-- Claim theorems
-- ============================================================================

/-- C1 (counterexample): the claim "Σ self_samples = total_weight, where
total_weight includes samples whose stack index is null" is false.  In the
profile `nullA` the single sample has a `null` stack index and weight 5: it is
counted in `total_weight` but credited to no function's `self_samples`, so the
self-sample sum is 0 while `total_weight` is 5. -/
theorem c1_weight_conservation_counterexample :
    sumSelf (nullA.hotspotAggregate none).1 = 0 ∧
    (nullA.hotspotAggregate none).2 = 5 ∧
    sumSelf (nullA.hotspotAggregate none).1 ≠ (nullA.hotspotAggregate none).2 := by
  refine ⟨?_, ?_, ?_⟩ <;> decide

/-- C1 (amended): for every profile with well-formed (decreasing-prefix) stack
tables and every thread filter, the sum of `self_samples` over all functions
of the hotspot aggregation equals the sum of the weights of the samples whose
stack index is non-null (over the threads passing the filter), while the
aggregation's `total_weight` equals the sum of ALL sample weights including
the null-stack ones; the two coincide exactly when no kept sample has a null
stack. -/
theorem c1_weight_conservation_amended (a : ProfileAnalyzer) (filt : Option String)
    (h : ∀ td ∈ a.threads, stackParentsDec td = true) :
    sumSelf (a.hotspotAggregate filt).1 = keptNonNullWeight filt a.threads ∧
    (a.hotspotAggregate filt).2 = keptWeight filt a.threads := by
  have hs := hotThreadsLoop_spec a.global_strings filt a.threads h 0 [] 0
  unfold ProfileAnalyzer.hotspotAggregate
  constructor
  · rw [hs.2]
    simp [sumSelf]
  · rw [hs.1]
    simp

/-- C1 witness: the amended statement evaluated on the concrete profile
`posA`. -/
theorem c1_weight_conservation_witness :
    sumSelf (posA.hotspotAggregate none).1 = keptNonNullWeight none posA.threads ∧
    (posA.hotspotAggregate none).2 = keptWeight none posA.threads :=
  c1_weight_conservation_amended posA none (by decide)

/-- C4 (counterexample): with a negative-weight sample the claim
`total_samples ≥ self_samples` fails.  In `negA`, sample `[A]` has weight 1
and sample `[B, A]` has weight −1, so `A` ends with `self_samples = 1` but
`total_samples = 0`. -/
theorem c4_total_ge_self_counterexample :
    totalOf (negA.hotspotAggregate none).1 "A" <
      selfOf (negA.hotspotAggregate none).1 "A" := by
  decide

/-- C4 (amended): for every profile whose sample weights are all
non-negative (every real duration profile) and every thread filter, every
function accumulated by the hotspot aggregation has
`total_samples ≥ self_samples`: the leaf is always the head of its stack
walk, so the per-sample seen-set credits the leaf's name toward total time
whenever it receives self time. -/
theorem c4_total_ge_self_amended (a : ProfileAnalyzer) (filt : Option String)
    (hw : ∀ td ∈ a.threads, ∀ s ∈ td.samples, 0 ≤ s.2) :
    (∀ n : String, selfOf (a.hotspotAggregate filt).1 n ≤ totalOf (a.hotspotAggregate filt).1 n) ∧
    (∀ p ∈ (a.hotspotAggregate filt).1, p.2.self_samples ≤ p.2.total_samples) := by
  have hpt : ∀ n, selfOf (a.hotspotAggregate filt).1 n ≤ totalOf (a.hotspotAggregate filt).1 n := by
    intro n
    exact hotThreadsLoop_mono a.global_strings filt a.threads hw 0 [] 0 n (le_refl 0)
  refine ⟨hpt, ?_⟩
  intro p hp
  have hnd : ((a.hotspotAggregate filt).1.map Prod.fst).Nodup :=
    nodup_hotThreadsLoop a.global_strings filt a.threads 0 [] 0 (by simp)
  have hg := getAL_of_mem ({} : HotFuncStats) (a.hotspotAggregate filt).1 hnd p hp
  have := hpt p.1
  unfold selfOf totalOf at this
  rw [hg] at this
  exact this

/-- C4 witness: the amended statement evaluated on the concrete profile
`posA` (whose weights are 1 and 3). -/
theorem c4_total_ge_self_witness :
    (∀ n : String, selfOf (posA.hotspotAggregate none).1 n ≤ totalOf (posA.hotspotAggregate none).1 n) ∧
    (∀ p ∈ (posA.hotspotAggregate none).1, p.2.self_samples ≤ p.2.total_samples) :=
  c4_total_ge_self_amended posA none (by decide)

/-- C3 (refutation of the claimed bound): the source's `walk_stack` loop has
no defensive bound.  On the thread `cyclicThread`, whose stack table is the
single self-loop entry `prefix[0] = Some(0)`, the walk started at stack index
0 is still running after ANY number of iterations — the fueled embedding
returns `none` (loop not yet finished) for every fuel.  The source loop
therefore never terminates on this input, contradicting "walking the prefix
chain terminates, producing at most stack-table-length nodes". -/
theorem c3_stack_walk_unbounded :
    ∀ fuel : Nat, walkStackAux cyclicThread fuel (some 0) = none := by
  intro fuel
  induction fuel with
  | zero => rfl
  | succ f IH =>
    rw [walkStackAux_succ]
    have hp : cyclicThread.get_stack_prefix_entry 0 = some 0 := rfl
    rw [hp, IH]
    rfl

/-- C9 (counterexample): `get_frame_func` and `get_stack_frame` do NOT return
an absent/Option-like value for out-of-range indices — they return the plain
index 0, indistinguishable from a legitimate lookup: on `tdC9` the
out-of-range access at index 9 returns exactly the same value as the valid
access at index 0. -/
theorem c9_out_of_range_counterexample :
    tdC9.frame_func.length ≤ 9 ∧ tdC9.stack_frame.length ≤ 9 ∧
    tdC9.get_frame_func 9 = 0 ∧ tdC9.get_frame_func 9 = tdC9.get_frame_func 0 ∧
    tdC9.get_stack_frame 9 = 0 ∧ tdC9.get_stack_frame 9 = tdC9.get_stack_frame 0 := by
  refine ⟨?_, ?_, ?_, ?_, ?_, ?_⟩ <;> decide

/-- C9 (amended): for out-of-range indices the `Option`-returning getters
(`get_stack_prefix`, `get_frame_address`, `get_frame_line`,
`get_frame_native_symbol`, `get_func_line`, `get_func_file`,
`get_func_lib_index`) return `none` and `get_string` returns the synthetic
placeholder, but the index-returning getters `get_frame_func` and
`get_stack_frame` silently return the plain index 0 (they do not fault, and
the result looks like a valid entry). -/
theorem c9_out_of_range_amended (td : ThreadData) (gs : List String) (i : Nat) :
    (td.frame_func.length ≤ i → td.get_frame_func i = 0) ∧
    (td.stack_frame.length ≤ i → td.get_stack_frame i = 0) ∧
    (td.stack_prefix_col.length ≤ i → td.get_stack_prefix_entry i = none) ∧
    (td.frame_address.length ≤ i → td.get_frame_address i = none) ∧
    (td.frame_line.length ≤ i → td.get_frame_line i = none) ∧
    (td.frame_native_symbol.length ≤ i → td.get_frame_native_symbol i = none) ∧
    (td.func_line.length ≤ i → td.get_func_line i = none) ∧
    (td.func_file_idx.length ≤ i → td.get_func_file i gs = none) ∧
    (td.func_resource.length ≤ i → td.get_func_lib_index i = none) ∧
    (td.string_table.length ≤ i → gs.length ≤ i →
      td.get_string i gs = "<string " ++ toString i ++ ">") := by
  refine ⟨fun h => ?_, fun h => ?_, fun h => ?_, fun h => ?_, fun h => ?_,
    fun h => ?_, fun h => ?_, fun h => ?_, fun h => ?_, fun h1 h2 => ?_⟩
  · simp [ThreadData.get_frame_func, Nat.not_lt.mpr h]
  · simp [ThreadData.get_stack_frame, Nat.not_lt.mpr h]
  · simp [ThreadData.get_stack_prefix_entry, Nat.not_lt.mpr h]
  · simp [ThreadData.get_frame_address, Nat.not_lt.mpr h]
  · simp [ThreadData.get_frame_line, Nat.not_lt.mpr h]
  · simp [ThreadData.get_frame_native_symbol, Nat.not_lt.mpr h]
  · simp [ThreadData.get_func_line, Nat.not_lt.mpr h]
  · simp [ThreadData.get_func_file, Nat.not_lt.mpr h]
  · simp [ThreadData.get_func_lib_index, Nat.not_lt.mpr h]
  · simp [ThreadData.get_string, Nat.not_lt.mpr h1, Nat.not_lt.mpr h2]

/-- C9 witness: the amended statement applied to the concrete thread `tdC9`
at the out-of-range index 9. -/
theorem c9_out_of_range_witness :
    tdC9.get_frame_func 9 = 0 ∧ tdC9.get_stack_frame 9 = 0 ∧
    tdC9.get_stack_prefix_entry 9 = none ∧ tdC9.get_frame_address 9 = none ∧
    tdC9.get_frame_line 9 = none ∧ tdC9.get_frame_native_symbol 9 = none ∧
    tdC9.get_func_line 9 = none ∧ tdC9.get_func_file 9 [] = none ∧
    tdC9.get_func_lib_index 9 = none ∧ tdC9.get_string 9 [] = "<string 9>" := by
  have h := c9_out_of_range_amended tdC9 [] 9
  exact ⟨h.1 (by decide), h.2.1 (by decide), h.2.2.1 (by decide),
    h.2.2.2.1 (by decide), h.2.2.2.2.1 (by decide), h.2.2.2.2.2.1 (by decide),
    h.2.2.2.2.2.2.1 (by decide), h.2.2.2.2.2.2.2.1 (by decide),
    h.2.2.2.2.2.2.2.2.1 (by decide), h.2.2.2.2.2.2.2.2.2 (by decide) (by decide)⟩

/-- C5: the address column decoder maps every present value `n ≥ 0` to
`some n` (as an unsigned value), every negative value to `none` (and a
JSON `null` to `none`), preserving length; in particular the column
`[5, -1, 10]` decodes to `[Some(5), None, Some(10)]`. -/
theorem c5_address_decoding :
    decodeAddressColumn exampleCol = [some 5, none, some 10] ∧
    (∀ v : List (Option Int), (decodeAddressColumn v).length = v.length) ∧
    (∀ (v : List (Option Int)) (i : Nat) (h : i < v.length)
        (h2 : i < (decodeAddressColumn v).length),
      (∀ n : Int, v.get ⟨i, h⟩ = some n → 0 ≤ n →
        (decodeAddressColumn v).get ⟨i, h2⟩ = some n.toNat) ∧
      (∀ n : Int, v.get ⟨i, h⟩ = some n → n < 0 →
        (decodeAddressColumn v).get ⟨i, h2⟩ = none) ∧
      (v.get ⟨i, h⟩ = none → (decodeAddressColumn v).get ⟨i, h2⟩ = none)) := by
  refine ⟨by decide, fun v => by simp [decodeAddressColumn], ?_⟩
  intro v i h h2
  have key : (decodeAddressColumn v).get ⟨i, h2⟩ =
      (match v.get ⟨i, h⟩ with
       | some n => if 0 ≤ n then some n.toNat else none
       | none => none) := by
    simp [decodeAddressColumn, List.get_eq_getElem, List.getElem_map]
  refine ⟨?_, ?_, ?_⟩
  · intro n hn hpos
    rw [key, hn]
    simp [hpos]
  · intro n hn hneg
    rw [key, hn]
    simp [Int.not_le.mpr hneg]
  · intro hn
    rw [key, hn]

/-- C5 witness: the elementwise statements applied to the example column. -/
theorem c5_address_decoding_witness :
    decodeAddressColumn exampleCol = [some 5, none, some 10] ∧
    (decodeAddressColumn exampleCol).get ⟨0, by decide⟩ = some 5 ∧
    (decodeAddressColumn exampleCol).get ⟨1, by decide⟩ = none := by
  refine ⟨c5_address_decoding.1, ?_, ?_⟩
  · exact (c5_address_decoding.2.2 exampleCol 0 (by decide) (by decide)).1 5 (by decide) (by decide)
  · exact (c5_address_decoding.2.2 exampleCol 1 (by decide) (by decide)).2.1 (-1) (by decide) (by decide)

/-- C6: string resolution tries the thread-local pool first, then the global
pool, and otherwise produces the synthetic placeholder. -/
theorem c6_string_resolution (td : ThreadData) (gs : List String) (i : Nat) :
    (∀ h : i < td.string_table.length, td.get_string i gs = td.string_table.get ⟨i, h⟩) ∧
    (td.string_table.length ≤ i → ∀ h : i < gs.length, td.get_string i gs = gs.get ⟨i, h⟩) ∧
    (td.string_table.length ≤ i → gs.length ≤ i →
      td.get_string i gs = "<string " ++ toString i ++ ">") := by
  refine ⟨?_, ?_, ?_⟩
  · intro h
    unfold ThreadData.get_string
    rw [if_pos h, List.getD_eq_get _ _ h]
  · intro h1 h
    unfold ThreadData.get_string
    rw [if_neg (Nat.not_lt.mpr h1), if_pos h, List.getD_eq_get _ _ h]
  · intro h1 h2
    unfold ThreadData.get_string
    rw [if_neg (Nat.not_lt.mpr h1), if_neg (Nat.not_lt.mpr h2)]

/-- C6 witness: resolution on a concrete thread, a local hit (index 0), a
global hit (index 5, local pool has length 2) and the placeholder
(index 7). -/
theorem c6_string_resolution_witness :
    tdPos.get_string 0 [] = tdPos.string_table.get ⟨0, by decide⟩ ∧
    tdPos.get_string 5 ["a", "b", "c", "d", "e", "g5"] =
      ["a", "b", "c", "d", "e", "g5"].get ⟨5, by decide⟩ ∧
    tdPos.get_string 7 [] = "<string 7>" :=
  ⟨(c6_string_resolution tdPos [] 0).1 (by decide),
   (c6_string_resolution tdPos ["a", "b", "c", "d", "e", "g5"] 5).2.1 (by decide) (by decide),
   (c6_string_resolution tdPos [] 7).2.2 (by decide) (by decide)⟩

/-- C8 (the code never validates lengths): `badRaw` declares
`samples.length = 5` while its `stack` and `weight` columns have length 1,
yet `from_raw_profile` succeeds — the decoder contains no length-mismatch
check at all (the `InvalidProfile` error variant exists but is never
produced), contradicting the claimed typed semantic failure. -/
theorem c8_decode_never_validates :
    badRaw.threads.length = 1 ∧
    (badRaw.threads.getD 0 {}).samples.length = 5 ∧
    (badRaw.threads.getD 0 {}).samples.stack.length = 1 ∧
    (badRaw.threads.getD 0 {}).samples.weight.length = 1 ∧
    ∃ m : ProfileAnalyzer, from_raw_profile badRaw = Except.ok m :=
  ⟨rfl, rfl, rfl, rfl, ⟨_, rfl⟩⟩

/-- Every string contains itself as a substring. -/
theorem strContains_self (s : String) : strContains s s = true := by
  simp only [strContains, decide_eq_true_eq]
  exact List.infix_refl s.data

/-- The exact pass only ever returns the pattern itself, and only when the
pattern occurs among the scanned names. -/
theorem findExactNames_some (gs : List String) (pattern : String) (td : ThreadData) :
    ∀ (l : List Nat) (n : String), findExactNames gs pattern td l = some n →
      n = pattern ∧ ∃ ni ∈ l, td.get_string ni gs = n := by
  intro l
  induction l with
  | nil => intro n h; cases h
  | cons ni rest IH =>
    intro n h
    unfold findExactNames at h
    dsimp only at h
    split at h
    · rename_i heq
      cases h
      exact ⟨heq, ni, by simp, rfl⟩
    · obtain ⟨h1, ni2, h2, h3⟩ := IH n h
      exact ⟨h1, ni2, by simp [h2], h3⟩

/-- A failed exact pass means no scanned name equals the pattern. -/
theorem findExactNames_none (gs : List String) (pattern : String) (td : ThreadData) :
    ∀ l : List Nat, findExactNames gs pattern td l = none →
      ∀ ni ∈ l, td.get_string ni gs ≠ pattern := by
  intro l
  induction l with
  | nil => intro _ ni h; cases h
  | cons ni rest IH =>
    intro h ni2 hni2
    unfold findExactNames at h
    dsimp only at h
    split at h
    · cases h
    · rename_i hne
      rcases List.mem_cons.mp hni2 with he | he
      · rw [he]; exact hne
      · exact IH h ni2 he

/-- The exact pass over all threads returns the pattern, found among the
profile's names. -/
theorem findExactIn_some (gs : List String) (pattern : String) :
    ∀ (tds : List ThreadData) (n : String), findExactIn gs pattern tds = some n →
      n = pattern ∧ ∃ td ∈ tds, ∃ ni ∈ td.func_name_idx, td.get_string ni gs = n := by
  intro tds
  induction tds with
  | nil => intro n h; cases h
  | cons td rest IH =>
    intro n h
    unfold findExactIn at h
    split at h
    · rename_i hsome
      cases h
      obtain ⟨h1, ni, h2, h3⟩ := findExactNames_some gs pattern td td.func_name_idx _ hsome
      exact ⟨h1, td, by simp, ni, h2, h3⟩
    · obtain ⟨h1, td2, h2, h3⟩ := IH n h
      exact ⟨h1, td2, by simp [h2], h3⟩

/-- A failed exact pass over all threads means the pattern equals no resolved
name in the profile. -/
theorem findExactIn_none (gs : List String) (pattern : String) :
    ∀ tds : List ThreadData, findExactIn gs pattern tds = none →
      ∀ td ∈ tds, ∀ ni ∈ td.func_name_idx, td.get_string ni gs ≠ pattern := by
  intro tds
  induction tds with
  | nil => intro _ td h; cases h
  | cons td rest IH =>
    intro h td2 htd2 ni hni
    unfold findExactIn at h
    split at h
    · cases h
    · rename_i hnone
      rcases List.mem_cons.mp htd2 with he | he
      · rw [he]; exact findExactNames_none gs pattern td td.func_name_idx hnone ni (he ▸ hni)
      · exact IH h td2 he ni hni

/-- The substring pass returns a scanned name that contains the pattern. -/
theorem findContainsNames_some (gs : List String) (pattern : String) (td : ThreadData) :
    ∀ (l : List Nat) (n : String), findContainsNames gs pattern td l = some n →
      (∃ ni ∈ l, td.get_string ni gs = n) ∧ strContains n pattern = true := by
  intro l
  induction l with
  | nil => intro n h; cases h
  | cons ni rest IH =>
    intro n h
    unfold findContainsNames at h
    dsimp only at h
    split at h
    · rename_i hc
      cases h
      exact ⟨⟨ni, by simp, rfl⟩, hc⟩
    · obtain ⟨⟨ni2, h2, h3⟩, h4⟩ := IH n h
      exact ⟨⟨ni2, by simp [h2], h3⟩, h4⟩

/-- A failed substring pass means no scanned name contains the pattern. -/
theorem findContainsNames_none (gs : List String) (pattern : String) (td : ThreadData) :
    ∀ l : List Nat, findContainsNames gs pattern td l = none →
      ∀ ni ∈ l, strContains (td.get_string ni gs) pattern = false := by
  intro l
  induction l with
  | nil => intro _ ni h; cases h
  | cons ni rest IH =>
    intro h ni2 hni2
    unfold findContainsNames at h
    dsimp only at h
    split at h
    · cases h
    · rename_i hne
      rcases List.mem_cons.mp hni2 with he | he
      · rw [he]; simpa using hne
      · exact IH h ni2 he

/-- The substring pass over all threads returns a profile name containing the
pattern. -/
theorem findContainsIn_some (gs : List String) (pattern : String) :
    ∀ (tds : List ThreadData) (n : String), findContainsIn gs pattern tds = some n →
      (∃ td ∈ tds, ∃ ni ∈ td.func_name_idx, td.get_string ni gs = n) ∧
      strContains n pattern = true := by
  intro tds
  induction tds with
  | nil => intro n h; cases h
  | cons td rest IH =>
    intro n h
    unfold findContainsIn at h
    split at h
    · rename_i hsome
      cases h
      obtain ⟨⟨ni, h2, h3⟩, h4⟩ := findContainsNames_some gs pattern td td.func_name_idx _ hsome
      exact ⟨⟨td, by simp, ni, h2, h3⟩, h4⟩
    · obtain ⟨⟨td2, h2, h3⟩, h4⟩ := IH n h
      exact ⟨⟨td2, by simp [h2], h3⟩, h4⟩

/-- A failed substring pass over all threads means no profile name contains
the pattern. -/
theorem findContainsIn_none (gs : List String) (pattern : String) :
    ∀ tds : List ThreadData, findContainsIn gs pattern tds = none →
      ∀ td ∈ tds, ∀ ni ∈ td.func_name_idx,
        strContains (td.get_string ni gs) pattern = false := by
  intro tds
  induction tds with
  | nil => intro _ td h; cases h
  | cons td rest IH =>
    intro h td2 htd2 ni hni
    unfold findContainsIn at h
    split at h
    · cases h
    · rename_i hnone
      rcases List.mem_cons.mp htd2 with he | he
      · rw [he]
        exact findContainsNames_none gs pattern td td.func_name_idx hnone ni (he ▸ hni)
      · exact IH h td2 he ni hni

/-- Membership in the flattened name list is existence of a thread and a
name-column entry resolving to the string. -/
theorem mem_func_names_list (a : ProfileAnalyzer) (s : String) :
    s ∈ a.func_names_list ↔
      ∃ td ∈ a.threads, ∃ ni ∈ td.func_name_idx,
        td.get_string ni a.global_strings = s := by
  simp only [ProfileAnalyzer.func_names_list, List.mem_flatten, List.mem_map]
  constructor
  · rintro ⟨l, ⟨td, htd, rfl⟩, hs⟩
    obtain ⟨ni, hni, hval⟩ := List.mem_map.mp hs
    exact ⟨td, htd, ni, hni, hval⟩
  · rintro ⟨td, htd, ni, hni, hval⟩
    exact ⟨_, ⟨td, htd, rfl⟩, List.mem_map.mpr ⟨ni, hni, hval⟩⟩

/-- C7: pattern resolution.  (1) If the pattern equals some resolved function
name of the profile, the result is the pattern itself (exact match wins).
(2) If some profile name contains the pattern, the result is a profile name
containing the pattern.  (3) If no profile name contains the pattern, the
pattern is returned verbatim. -/
theorem c7_pattern_resolution (a : ProfileAnalyzer) (pattern : String) :
    (pattern ∈ a.func_names_list → a.find_matching_function pattern = pattern) ∧
    ((∃ n ∈ a.func_names_list, strContains n pattern = true) →
      a.find_matching_function pattern ∈ a.func_names_list ∧
      strContains (a.find_matching_function pattern) pattern = true) ∧
    ((∀ n ∈ a.func_names_list, strContains n pattern = false) →
      a.find_matching_function pattern = pattern) := by
  refine ⟨?_, ?_, ?_⟩
  · intro hmem
    obtain ⟨td, htd, ni, hni, hval⟩ := (mem_func_names_list a pattern).mp hmem
    unfold ProfileAnalyzer.find_matching_function
    cases hE : findExactIn a.global_strings pattern a.threads with
    | some n => exact (findExactIn_some a.global_strings pattern a.threads n hE).1
    | none =>
      exact absurd hval (findExactIn_none a.global_strings pattern a.threads hE td htd ni hni)
  · rintro ⟨n0, hn0, hc0⟩
    unfold ProfileAnalyzer.find_matching_function
    cases hE : findExactIn a.global_strings pattern a.threads with
    | some n =>
      obtain ⟨hnp, td, htd, ni, hni, hval⟩ :=
        findExactIn_some a.global_strings pattern a.threads n hE
      refine ⟨(mem_func_names_list a n).mpr ⟨td, htd, ni, hni, hval⟩, ?_⟩
      rw [hnp]
      exact strContains_self pattern
    | none =>
      cases hC : findContainsIn a.global_strings pattern a.threads with
      | some n =>
        obtain ⟨⟨td, htd, ni, hni, hval⟩, hc⟩ :=
          findContainsIn_some a.global_strings pattern a.threads n hC
        exact ⟨(mem_func_names_list a n).mpr ⟨td, htd, ni, hni, hval⟩, hc⟩
      | none =>
        obtain ⟨td, htd, ni, hni, hval⟩ := (mem_func_names_list a n0).mp hn0
        have := findContainsIn_none a.global_strings pattern a.threads hC td htd ni hni
        rw [hval, hc0] at this
        cases this
  · intro hnone
    unfold ProfileAnalyzer.find_matching_function
    cases hE : findExactIn a.global_strings pattern a.threads with
    | some n =>
      obtain ⟨hnp, td, htd, ni, hni, hval⟩ :=
        findExactIn_some a.global_strings pattern a.threads n hE
      have hmem := (mem_func_names_list a n).mpr ⟨td, htd, ni, hni, hval⟩
      have := hnone n hmem
      rw [hnp, strContains_self pattern] at this
      cases this
    | none =>
      cases hC : findContainsIn a.global_strings pattern a.threads with
      | some n =>
        obtain ⟨⟨td, htd, ni, hni, hval⟩, hc⟩ :=
          findContainsIn_some a.global_strings pattern a.threads n hC
        have := hnone n ((mem_func_names_list a n).mpr ⟨td, htd, ni, hni, hval⟩)
        rw [hc] at this
        cases this
      | none => rfl

/-- C7 witness: on the concrete profile `posA`, the exact name "main"
resolves to itself; the substring "wo" resolves to the containing name
"work"; the missing pattern "zzz" is returned verbatim. -/
theorem c7_pattern_resolution_witness :
    posA.find_matching_function "main" = "main" ∧
    (posA.find_matching_function "wo" ∈ posA.func_names_list ∧
      strContains (posA.find_matching_function "wo") "wo" = true) ∧
    posA.find_matching_function "zzz" = "zzz" :=
  ⟨(c7_pattern_resolution posA "main").1 (by decide),
   (c7_pattern_resolution posA "wo").2.1 ⟨"work", by decide, by decide⟩,
   (c7_pattern_resolution posA "zzz").2.2 (by decide)⟩

/-- Unfolding: the hot-path loop at depth 0. -/
theorem drillFollow_zero (a : ProfileAnalyzer) (fs : DrillMap) (cm : CalleeMap)
    (tw : Int) (T : ℚ) (current : String) (visited : List String)
    (path : List DrilldownNode) :
    drillFollow a fs cm tw T 0 current visited path = (path, none) := rfl

/-- Unfolding: one iteration of the hot-path loop. -/
theorem drillFollow_succ (a : ProfileAnalyzer) (fs : DrillMap) (cm : CalleeMap)
    (tw : Int) (T : ℚ) (d : Nat) (current : String) (visited : List String)
    (path : List DrilldownNode) :
    drillFollow a fs cm tw T (d + 1) current visited path =
      if current ∈ visited then
        match path.getLast? with
        | some prev =>
          match pickEscape visited prev.callees with
          | some nxt => drillFollow a fs cm tw T d nxt.name visited path
          | none => (path, none)
        | none => (path, none)
      else
        let node := drillMakeNode a fs cm tw T current
        match node.is_bottleneck with
        | some _ => (path ++ [node], some (drillMakeBn node))
        | none =>
          match node.callees.head? with
          | some h => drillFollow a fs cm tw T d h.name (current :: visited) (path ++ [node])
          | none => (path ++ [node], none) := rfl

/-- A node is marked a bottleneck exactly when its self percent exceeds the
threshold; the mark, when present, is `some true`. -/
theorem drillMakeNode_bottleneck (a : ProfileAnalyzer) (fs : DrillMap) (cm : CalleeMap)
    (tw : Int) (T : ℚ) (current : String)
    (h : (drillMakeNode a fs cm tw T current).is_bottleneck ≠ none) :
    (drillMakeNode a fs cm tw T current).is_bottleneck = some true ∧
    T < (drillMakeNode a fs cm tw T current).self_percent := by
  by_cases hlt : T < drillSelfPercent fs tw current
  · exact ⟨by simp [drillMakeNode, hlt], by simpa [drillMakeNode] using hlt⟩
  · exact absurd (by simp [drillMakeNode, hlt]) h

/-- Invariant of the hot-path loop: at most `d` nodes are appended, and when
a bottleneck is returned, the final path ends in a node whose self percent
exceeds the threshold and that carries `is_bottleneck = some true`. -/
theorem drillFollow_spec (a : ProfileAnalyzer) (fs : DrillMap) (cm : CalleeMap)
    (tw : Int) (T : ℚ) :
    ∀ (d : Nat) (current : String) (visited : List String) (path : List DrilldownNode),
      (drillFollow a fs cm tw T d current visited path).1.length ≤ path.length + d ∧
      (∀ b, (drillFollow a fs cm tw T d current visited path).2 = some b →
        ∃ last, (drillFollow a fs cm tw T d current visited path).1.getLast? = some last ∧
          T < last.self_percent ∧ last.is_bottleneck = some true) := by
  intro d
  induction d with
  | zero =>
    intro current visited path
    rw [drillFollow_zero]
    exact ⟨by simp, fun b hb => by cases hb⟩
  | succ d IH =>
    intro current visited path
    rw [drillFollow_succ]
    dsimp only
    split
    · cases hL : path.getLast? with
      | some prev =>
        dsimp only
        cases hP : pickEscape visited prev.callees with
        | some nxt =>
          dsimp only
          refine ⟨le_trans (IH nxt.name visited path).1 (by omega), (IH nxt.name visited path).2⟩
        | none =>
          dsimp only
          exact ⟨by omega, fun b hb => by cases hb⟩
      | none =>
        dsimp only
        exact ⟨by omega, fun b hb => by cases hb⟩
    · cases hB : (drillMakeNode a fs cm tw T current).is_bottleneck with
      | some bv =>
        dsimp only
        constructor
        · simp only [List.length_append, List.length_cons, List.length_nil]
          omega
        · intro b hb
          have hmark := drillMakeNode_bottleneck a fs cm tw T current (by rw [hB]; simp)
          exact ⟨drillMakeNode a fs cm tw T current, List.getLast?_concat _,
            hmark.2, hmark.1⟩
      | none =>
        dsimp only
        cases hH : (drillMakeNode a fs cm tw T current).callees.head? with
        | some hc =>
          dsimp only
          refine ⟨?_, (IH hc.name (current :: visited) (path ++ [drillMakeNode a fs cm tw T current])).2⟩
          have hlen := (IH hc.name (current :: visited) (path ++ [drillMakeNode a fs cm tw T current])).1
          simp only [List.length_append, List.length_cons, List.length_nil] at hlen
          omega
        | none =>
          dsimp only
          constructor
          · simp only [List.length_append, List.length_cons, List.length_nil]
            omega
          · intro b hb
            cases hb

/-- C2: for every profile with well-formed stack tables, every pattern, every
maximum depth `D` and every threshold `T`, the drilldown response's path has
length at most `D`, and whenever a bottleneck is recorded the last node of
the path has `self_percent > T` and carries `is_bottleneck == true`. -/
theorem c2_drilldown_termination (a : ProfileAnalyzer) (pat : String) (D : Nat) (T : ℚ)
    (h : ∀ td ∈ a.threads, stackParentsDec td = true) :
    (a.drilldown pat D T).path.length ≤ D ∧
    (∀ b, (a.drilldown pat D T).bottleneck = some b →
      ∃ last, (a.drilldown pat D T).path.getLast? = some last ∧
        T < last.self_percent ∧ last.is_bottleneck = some true) := by
  have key := drillFollow_spec a
    (drillThreadsLoop a.global_strings a.threads 0 [] [] 0).1
    (drillThreadsLoop a.global_strings a.threads 0 [] [] 0).2.1
    (drillThreadsLoop a.global_strings a.threads 0 [] [] 0).2.2
    T D (a.find_matching_function pat) [] []
  constructor
  · have h1 := key.1
    simp only [List.length_nil, Nat.zero_add] at h1
    exact h1
  · exact fun b hb => key.2 b hb

/-- C2 witness: the theorem evaluated on the concrete profile `posA`. -/
theorem c2_drilldown_termination_witness :
    (posA.drilldown "main" 5 50).path.length ≤ 5 ∧
    (∀ b, (posA.drilldown "main" 5 50).bottleneck = some b →
      ∃ last, (posA.drilldown "main" 5 50).path.getLast? = some last ∧
        (50 : ℚ) < last.self_percent ∧ last.is_bottleneck = some true) :=
  c2_drilldown_termination posA "main" 5 50 (by decide)

/-- The sample loop of `drilldown` adds every sample's weight (null-stack
samples included) to `total_weight`. -/
theorem drillSamplesLoop_tw (gs : List String) (ti : Nat) (td : ThreadData) :
    ∀ (samples : List (Option Nat × Int)) (fs : DrillMap) (cm : CalleeMap) (tw : Int),
      (drillSamplesLoop gs ti td samples fs cm tw).2.2 =
        tw + (samples.map (fun s => s.2)).sum := by
  intro samples
  induction samples with
  | nil => intro fs cm tw; simp [drillSamplesLoop]
  | cons s rest IH =>
    intro fs cm tw
    obtain ⟨so, w⟩ := s
    unfold drillSamplesLoop
    rw [IH]
    simp
    ring

/-- The thread loop of `drilldown` accumulates the weights of all samples of
all threads. -/
theorem drillThreadsLoop_tw (gs : List String) :
    ∀ (tds : List ThreadData) (ti : Nat) (fs : DrillMap) (cm : CalleeMap) (tw : Int),
      (drillThreadsLoop gs tds ti fs cm tw).2.2 = tw + (tds.map sampleWeightSum).sum := by
  intro tds
  induction tds with
  | nil => intro ti fs cm tw; simp [drillThreadsLoop]
  | cons td rest IH =>
    intro ti fs cm tw
    unfold drillThreadsLoop
    dsimp only
    rw [IH, drillSamplesLoop_tw]
    simp [sampleWeightSum]
    ring

/-- C10: the drilldown response's `total_samples` equals the sum of the
weights of ALL samples across all threads — including samples whose stack
index is null — independent of the resolved root function (`total_weight` is
accumulated before the null-stack check). -/
theorem c10_drilldown_total_weight (a : ProfileAnalyzer) (pat : String) (D : Nat) (T : ℚ)
    (h : ∀ td ∈ a.threads, stackParentsDec td = true) :
    (a.drilldown pat D T).total_samples = profileTotalWeight a := by
  show (drillThreadsLoop a.global_strings a.threads 0 [] [] 0).2.2 = profileTotalWeight a
  rw [drillThreadsLoop_tw]
  simp [profileTotalWeight]

/-- C10 witness: the theorem evaluated on the concrete profile `posA`. -/
theorem c10_drilldown_total_weight_witness :
    (posA.drilldown "main" 3 50).total_samples = profileTotalWeight posA :=
  c10_drilldown_total_weight posA "main" 3 50 (by decide)
